import Mathlib

/-!
Verification of the resilient request/response ingestion layer of the
CodexHelper extension: the transport retrier (`fetchWithRetry`), the response
mode sniffer and reader (`readResponseText`), the SSE stream decoder
(`readSseTextStream` / `flushEventBlock`), the request lifecycle registry
(`inflightChats`), the chat message handler, and the auth-header builder
(`buildAuthHeaders`).  JavaScript strings are modelled as Lean `String`
(lists of characters); machine-level byte decoding is modelled at the
character level, which is faithful because `TextDecoder` with `stream: true`
reassembles split UTF-8 sequences.
-/

namespace CodexHelper

/-! ## JavaScript character and string primitives -/

/-- Whitespace recognised by JavaScript `trim` / `trimStart` (the WhiteSpace
and LineTerminator productions). -/
def isJsWhitespace (c : Char) : Bool :=
  c == ' ' || c == '\t' || c == '\n' || c == '\r' ||
  c == '\x0b' || c == '\x0c' ||
  c.toNat == 0xa0 || c.toNat == 0x1680 ||
  (0x2000 ≤ c.toNat && c.toNat ≤ 0x200a) ||
  c.toNat == 0x2028 || c.toNat == 0x2029 ||
  c.toNat == 0x202f || c.toNat == 0x205f ||
  c.toNat == 0x3000 || c.toNat == 0xfeff

/-- JavaScript `String.prototype.trimStart` on a character list. -/
def jsTrimStartL (cs : List Char) : List Char :=
  cs.dropWhile isJsWhitespace

/-- JavaScript `String.prototype.trim` on a character list. -/
def jsTrimL (cs : List Char) : List Char :=
  ((jsTrimStartL cs).reverse.dropWhile isJsWhitespace).reverse

/-- JavaScript `String.prototype.trim`. -/
def jsTrim (s : String) : String :=
  ⟨jsTrimL s.data⟩

/-- JavaScript `String.prototype.trimStart`. -/
def jsTrimStart (s : String) : String :=
  ⟨jsTrimStartL s.data⟩

/-- Boolean list-prefix test (JavaScript `String.prototype.startsWith`). -/
def prefixB : List Char → List Char → Bool
  | [], _ => true
  | _ :: _, [] => false
  | a :: as, b :: bs => a == b && prefixB as bs

/-- JavaScript `String.prototype.includes`: does `needle` occur as a
contiguous run inside the haystack? -/
def containsSub (needle : List Char) : List Char → Bool
  | [] => needle.isEmpty
  | c :: rest => prefixB needle (c :: rest) || containsSub needle rest

/-- Case-insensitive containment, modelling a `/pat/i` regex test where the
pattern is a plain literal. -/
def containsCI (s pat : String) : Bool :=
  containsSub (pat.data.map Char.toLower) (s.data.map Char.toLower)

/-- JavaScript `String.prototype.length` counts UTF-16 code units: an astral
character contributes 2. -/
def jsCharUnits (c : Char) : Nat :=
  if c.toNat ≥ 0x10000 then 2 else 1

/-- JavaScript string length in UTF-16 code units. -/
def jsLength (s : String) : Nat :=
  (s.data.map jsCharUnits).sum

/-- Line-terminator normalisation applied to each decoded chunk
(`options.js` line 221): `.replace(/\r\n/g, "\n").replace(/\r/g, "\n")`.
A single left-to-right pass is equivalent to the two global replaces because
replacing a lone CR can only be observed after all CRLF pairs at or before it
have been handled, which the pass does in order. -/
def normChars : List Char → List Char
  | [] => []
  | '\r' :: '\n' :: rest => '\n' :: normChars rest
  | '\r' :: rest => '\n' :: normChars rest
  | c :: rest => c :: normChars rest

/-- Chunk normalisation on strings. -/
def normStr (s : String) : String :=
  ⟨normChars s.data⟩

/-- The `indexOf` split on a double newline: the text before the first double
newline and the text after it, or `none` when no double newline occurs. -/
def splitFirstSep : List Char → Option (List Char × List Char)
  | [] => none
  | '\n' :: '\n' :: rest => some ([], rest)
  | c :: rest =>
    match splitFirstSep rest with
    | some (blk, after) => some (c :: blk, after)
    | none => none

/-- JavaScript `String.prototype.split("\n")` on a character list; the result
is always non-empty (splitting the empty string yields one empty line). -/
def splitNl : List Char → List (List Char)
  | [] => [[]]
  | '\n' :: rest => [] :: splitNl rest
  | c :: rest =>
    match splitNl rest with
    | [] => [[c]]
    | l :: ls => (c :: l) :: ls

/-! ## JSON values and `JSON.parse` -/

/-- A parsed JSON value.  Numbers keep their source lexeme: no embedded
operation of this program observes a numeric value beyond truthiness. -/
inductive Json where
  | null
  | bool (b : Bool)
  | num (lexeme : String)
  | str (s : String)
  | arr (elems : List Json)
  | obj (fields : List (String × Json))
deriving Repr

/-- Property lookup on a parsed JSON value (JavaScript member access after
`JSON.parse`; with duplicate keys the last assignment wins, as in `parse`).
Non-objects have no string-keyed own properties. -/
def Json.getField : Json → String → Option Json
  | .obj fs, key => fs.foldl (fun acc f => if f.1 == key then some f.2 else acc) none
  | _, _ => none

/-- Index access `x[i]` on a parsed JSON value. -/
def Json.getIndex : Json → Nat → Option Json
  | .arr l, i => l[i]?
  | _, _ => none

/-- JavaScript truthiness of a parsed JSON value.  A number is falsy exactly
when it denotes zero, i.e. all its mantissa digits are `0` (exponent
underflow to floating-point zero is not observed by this program). -/
def Json.truthy : Json → Bool
  | .null => false
  | .bool b => b
  | .num lexeme => (lexeme.data.filter Char.isDigit).any (· != '0')
  | .str s => !s.data.isEmpty
  | .arr _ => true
  | .obj _ => true

/-- The test `typeof x === "object"` for a parsed JSON value (`null` and arrays also
have typeof `"object"`). -/
def Json.typeofObject : Json → Bool
  | .null => true
  | .arr _ => true
  | .obj _ => true
  | _ => false

/-- JSON document whitespace accepted between tokens by `JSON.parse`. -/
def isJsonWs (c : Char) : Bool :=
  c == ' ' || c == '\t' || c == '\n' || c == '\r'

/-- Skip JSON token whitespace. -/
def skipWs (cs : List Char) : List Char :=
  cs.dropWhile isJsonWs

/-- Value of one hexadecimal digit. -/
def hexVal (c : Char) : Option Nat :=
  if '0' ≤ c && c ≤ '9' then some (c.toNat - 48)
  else if 'a' ≤ c && c ≤ 'f' then some (c.toNat - 87)
  else if 'A' ≤ c && c ≤ 'F' then some (c.toNat - 55)
  else none

/-- Prepend a character to the content part of a string-parse result. -/
def consFst (c : Char) (o : Option (List Char × List Char)) :
    Option (List Char × List Char) :=
  o.map (fun p => (c :: p.1, p.2))

/-- Parse the body of a JSON string after the opening quote; returns the
content and the remainder after the closing quote.  Escapes follow
`JSON.parse`; a `\uXXXX` surrogate pair yields the combined character, and a
lone surrogate (representable in a JavaScript string but not in a Lean
`Char`) is modelled as U+FFFD — no input of this development contains one. -/
def parseStrBody : Nat → List Char → Option (List Char × List Char)
  | 0, _ => none
  | _ + 1, [] => none
  | fuel + 1, c :: rest =>
    if c == '"' then some ([], rest)
    else if c == '\\' then
      match rest with
      | '"' :: r => consFst '"' (parseStrBody fuel r)
      | '\\' :: r => consFst '\\' (parseStrBody fuel r)
      | '/' :: r => consFst '/' (parseStrBody fuel r)
      | 'b' :: r => consFst '\x08' (parseStrBody fuel r)
      | 'f' :: r => consFst '\x0c' (parseStrBody fuel r)
      | 'n' :: r => consFst '\n' (parseStrBody fuel r)
      | 'r' :: r => consFst '\r' (parseStrBody fuel r)
      | 't' :: r => consFst '\t' (parseStrBody fuel r)
      | 'u' :: h1 :: h2 :: h3 :: h4 :: r =>
        match hexVal h1, hexVal h2, hexVal h3, hexVal h4 with
        | some a, some b, some d1, some d2 =>
          let n := ((a * 16 + b) * 16 + d1) * 16 + d2
          if 0xd800 ≤ n && n ≤ 0xdbff then
            match r with
            | '\\' :: 'u' :: g1 :: g2 :: g3 :: g4 :: r2 =>
              match hexVal g1, hexVal g2, hexVal g3, hexVal g4 with
              | some a2, some b2, some c2, some e2 =>
                let m := ((a2 * 16 + b2) * 16 + c2) * 16 + e2
                if 0xdc00 ≤ m && m ≤ 0xdfff then
                  consFst (Char.ofNat (0x10000 + (n - 0xd800) * 0x400 + (m - 0xdc00)))
                    (parseStrBody fuel r2)
                else consFst '�' (parseStrBody fuel r)
              | _, _, _, _ => consFst '�' (parseStrBody fuel r)
            | _ => consFst '�' (parseStrBody fuel r)
          else if 0xdc00 ≤ n && n ≤ 0xdfff then consFst '�' (parseStrBody fuel r)
          else consFst (Char.ofNat n) (parseStrBody fuel r)
        | _, _, _, _ => none
      | _ => none
    else if c.toNat < 0x20 then none
    else consFst c (parseStrBody fuel rest)

/-- Parse a JSON number, returning its lexeme and the remainder.  Follows the
`JSON.parse` grammar: optional minus, integer part without leading zeros,
optional fraction, optional exponent. -/
def parseNum (cs : List Char) : Option (String × List Char) :=
  let signed := match cs with
    | '-' :: r => (['-'], r)
    | _ => (([] : List Char), cs)
  let intPart := signed.2.takeWhile Char.isDigit
  let r1 := signed.2.dropWhile Char.isDigit
  if intPart.isEmpty then none
  else if intPart.length > 1 && intPart.headD '0' == '0' then none
  else
    let fracStep : Option (List Char × List Char) :=
      match r1 with
      | '.' :: rf =>
        let ds := rf.takeWhile Char.isDigit
        if ds.isEmpty then none
        else some ('.' :: ds, rf.dropWhile Char.isDigit)
      | _ => some ([], r1)
    match fracStep with
    | none => none
    | some (fracPart, r2) =>
      let expStep : Option (List Char × List Char) :=
        match r2 with
        | 'e' :: re => some (['e'], re)
        | 'E' :: re => some (['E'], re)
        | _ => none
      match expStep with
      | none => some (⟨signed.1 ++ intPart ++ fracPart⟩, r2)
      | some (eChar, re) =>
        let signedExp := match re with
          | '+' :: r => (eChar ++ ['+'], r)
          | '-' :: r => (eChar ++ ['-'], r)
          | _ => (eChar, re)
        let eds := signedExp.2.takeWhile Char.isDigit
        if eds.isEmpty then none
        else some (⟨signed.1 ++ intPart ++ fracPart ++ signedExp.1 ++ eds⟩,
                   signedExp.2.dropWhile Char.isDigit)

mutual

/-- Parse one JSON value (fuelled recursive descent mirroring `JSON.parse`). -/
def parseVal (fuel : Nat) (cs : List Char) : Option (Json × List Char) :=
  match fuel with
  | 0 => none
  | f + 1 =>
    match skipWs cs with
    | '"' :: rest =>
      (parseStrBody (rest.length + 1) rest).map (fun p => (Json.str ⟨p.1⟩, p.2))
    | '\x7b' :: rest =>
      match skipWs rest with
      | '\x7d' :: r => some (Json.obj [], r)
      | r => parseFields f r []
    | '[' :: rest =>
      match skipWs rest with
      | ']' :: r => some (Json.arr [], r)
      | r => parseItems f r []
    | 't' :: 'r' :: 'u' :: 'e' :: r => some (Json.bool true, r)
    | 'f' :: 'a' :: 'l' :: 's' :: 'e' :: r => some (Json.bool false, r)
    | 'n' :: 'u' :: 'l' :: 'l' :: r => some (Json.null, r)
    | r => (parseNum r).map (fun p => (Json.num p.1, p.2))

/-- Parse the members of a JSON object after the opening brace. -/
def parseFields (fuel : Nat) (cs : List Char) (acc : List (String × Json)) :
    Option (Json × List Char) :=
  match fuel with
  | 0 => none
  | f + 1 =>
    match skipWs cs with
    | '"' :: rest =>
      match parseStrBody (rest.length + 1) rest with
      | none => none
      | some (key, r1) =>
        match skipWs r1 with
        | ':' :: r2 =>
          match parseVal f r2 with
          | none => none
          | some (v, r3) =>
            match skipWs r3 with
            | ',' :: r4 => parseFields f r4 (acc ++ [(⟨key⟩, v)])
            | '\x7d' :: r4 => some (Json.obj (acc ++ [(⟨key⟩, v)]), r4)
            | _ => none
        | _ => none
    | _ => none

/-- Parse the elements of a JSON array after the opening bracket. -/
def parseItems (fuel : Nat) (cs : List Char) (acc : List Json) :
    Option (Json × List Char) :=
  match fuel with
  | 0 => none
  | f + 1 =>
    match parseVal f cs with
    | none => none
    | some (v, r1) =>
      match skipWs r1 with
      | ',' :: r2 => parseItems f r2 (acc ++ [v])
      | ']' :: r2 => some (Json.arr (acc ++ [v]), r2)
      | _ => none

end

/-- JavaScript `JSON.parse`: parse a complete document, requiring only whitespace after
the value.  The fuel `2 * length + 2` dominates the recursion depth: every
two fuel levels consume at least one input character. -/
def jsonParse (s : String) : Option Json :=
  match parseVal (2 * s.data.length + 2) s.data with
  | some (v, rest) => if skipWs rest = [] then some v else none
  | none => none

/-- Narrow an optional JSON value to a string (`typeof x === "string"`). -/
def optStr : Option Json → Option String
  | some (.str s) => some s
  | _ => none

/-- Collapse a JavaScript `null` to `undefined`, the equivalence used by the
nullish-coalescing operator `??`. -/
def jsNullish : Option Json → Option Json
  | some .null => none
  | o => o

/-- The coalescing `a ?? b` on optional JSON values. -/
def orElseNullish (a b : Option Json) : Option Json :=
  match jsNullish a with
  | none => b
  | v => v

mutual

/-- JavaScript `String(x)` on a parsed JSON value.  Number formatting keeps
the lexeme (the canonical float rendering is not observed by any operation
of this program). -/
def jsStringCoerce : Json → String
  | .null => "null"
  | .bool true => "true"
  | .bool false => "false"
  | .num lexeme => lexeme
  | .str s => s
  | .obj _ => "[object Object]"
  | .arr l => jsArrayJoin l

/-- JavaScript `Array.prototype.toString`: elements joined with commas, `null` rendered
as the empty string. -/
def jsArrayJoin : List Json → String
  | [] => ""
  | [Json.null] => ""
  | [e] => jsStringCoerce e
  | Json.null :: rest => "," ++ jsArrayJoin rest
  | e :: rest => jsStringCoerce e ++ "," ++ jsArrayJoin rest

end

/-- The coercion `String(x || "")`: the empty string for falsy values, otherwise the
string coercion. -/
def jsStringOrEmpty (v : Json) : String :=
  if v.truthy then jsStringCoerce v else ""

/-! ## Schema-tolerant text extraction (`options.js` `extractResponseText`,
`extractStreamDelta`) -/

/-- One entry of an output item's `content` list: the texts pushed for it by
`extractResponseText` (source lines 132–136). -/
def contentTexts (c : Json) : List String :=
  if !c.truthy || !c.typeofObject then []
  else
    (match c.getField "type", c.getField "text" with
     | some (.str "output_text"), some (.str t) => [t]
     | _, _ => []) ++
    (match c.getField "type", c.getField "text" with
     | some (.str "text"), some (.str t) => [t]
     | _, _ => [])

/-- The access `Array.isArray(item?.content) ? item.content : []`. -/
def itemContents (item : Json) : List Json :=
  match item.getField "content" with
  | some (.arr cl) => cl
  | _ => []

/-- Whole-document text extraction (source lines 123–145).  The final
chat-completion fallback can produce a non-string JSON value, which callers
pass through `String(x || "")`; the function therefore returns a `Json`. -/
def extractResponseText (data : Json) : Json :=
  if !data.truthy || !data.typeofObject then .str ""
  else
    match data.getField "output_text" with
    | some (.str s) => .str s
    | _ =>
      let output : List Json :=
        match data.getField "output" with
        | some (.arr l) => l
        | _ => []
      let chunks : List String := output.flatMap (fun item => (itemContents item).flatMap contentTexts)
      if !chunks.isEmpty then .str (String.join chunks)
      else
        match jsNullish (orElseNullish
            ((data.getField "choices").bind (·.getIndex 0) |>.bind (·.getField "message")
              |>.bind (·.getField "content"))
            ((data.getField "choices").bind (·.getIndex 0) |>.bind (·.getField "text"))) with
        | some v => v
        | none => .str ""

/-- Incremental delta extraction (source lines 147–160). -/
def extractStreamDelta (payload : Json) : String :=
  if !payload.truthy || !payload.typeofObject then ""
  else
    match payload.getField "type", payload.getField "delta" with
    | some (.str "response.output_text.delta"), some (.str d) => d
    | _, _ =>
      let maybeText := orElseNullish
        ((payload.getField "delta").bind (·.getField "content"))
        (orElseNullish
          ((payload.getField "choices").bind (·.getIndex 0) |>.bind (·.getField "delta")
            |>.bind (·.getField "content"))
          ((payload.getField "choices").bind (·.getIndex 0) |>.bind (·.getField "delta")
            |>.bind (·.getField "text")))
      match maybeText with
      | some (.str s) => s
      | _ => ""

/-! ## The SSE stream decoder (`options.js` `readSseTextStream`) -/

/-- The decoder's accumulator: incremental chunks, declared done-text, and
the recorded final envelope. -/
structure AccState where
  textChunks : List String
  doneText : String
  completedResponse : Option Json
deriving Repr

/-- Fresh accumulator. -/
def AccState.init : AccState := ⟨[], "", none⟩

/-- Strict equality `payload?.type === t` of the `type` field against a
string literal. -/
def typeIs (payload : Json) (t : String) : Bool :=
  match payload.getField "type" with
  | some (.str s) => s == t
  | _ => false

/-- The message carried by an explicit error event:
`typeof msg === "string" && msg.trim() ? msg : "Response error."`. -/
def errorEventMessage (payload : Json) : String :=
  match optStr ((payload.getField "error").bind (·.getField "message")) with
  | some m => if jsTrim m != "" then m else "Response error."
  | none => "Response error."

/-- Process one flushed event block (source lines 169–207). -/
def flushEventBlock (acc : AccState) (block : List Char) : Except String AccState :=
  let lines := splitNl block
  let dataLines := (lines.filter (fun l => prefixB "data:".data l)).map
      (fun l => jsTrimStartL (l.drop 5))
  if dataLines.isEmpty then .ok acc
  else
    let dataStr := jsTrimL (List.intercalate ['\n'] dataLines)
    if dataStr.isEmpty || dataStr == "[DONE]".data then .ok acc
    else
      match jsonParse ⟨dataStr⟩ with
      | none => .ok { acc with textChunks := acc.textChunks ++ [⟨dataStr⟩] }
      | some payload =>
        if typeIs payload "response.completed" &&
            ((payload.getField "response").getD Json.null).truthy then
          .ok { acc with completedResponse := payload.getField "response" }
        else if typeIs payload "response.output_text.done" &&
            (optStr (payload.getField "text")).isSome then
          .ok { acc with doneText := (optStr (payload.getField "text")).getD "" }
        else if typeIs payload "response.error" then
          .error (errorEventMessage payload)
        else
          let delta := extractStreamDelta payload
          let acc1 := if delta != "" then
              { acc with textChunks := acc.textChunks ++ [delta] }
            else acc
          match payload.getField "response" with
          | some v =>
            if v.truthy && v.typeofObject then .ok { acc1 with completedResponse := some v }
            else .ok acc1
          | none => .ok acc1

/-- Split a buffer into the complete (`"\n\n"`-terminated) event blocks and
the unterminated remainder — the repeated `indexOf("\n\n")`/`slice` loop of
source lines 210–216 applied to exhaustion. -/
def splitBlocks : List Char → (List (List Char) × List Char)
  | [] => ([], [])
  | '\n' :: '\n' :: rest =>
    let p := splitBlocks rest
    ([] :: p.1, p.2)
  | c :: rest =>
    match splitBlocks rest with
    | (blk :: bs, r) => ((c :: blk) :: bs, r)
    | ([], r) => ([], c :: r)

/-- Flush a list of event blocks in order, stopping at the first error. -/
def flushBlocks (acc : AccState) : List (List Char) → Except String AccState
  | [] => .ok acc
  | b :: bs =>
    match flushEventBlock acc b with
    | .error m => .error m
    | .ok acc' => flushBlocks acc' bs

/-- Decoder state: pending buffer plus accumulator. -/
structure SseState where
  buffer : List Char
  acc : AccState

/-- Flush every complete block currently in the buffer. -/
def drainNow (st : SseState) : Except String SseState :=
  match flushBlocks st.acc (splitBlocks st.buffer).1 with
  | .error m => .error m
  | .ok acc' => .ok ⟨(splitBlocks st.buffer).2, acc'⟩

/-- The decoder's read loop (source lines 209–222): drain the buffer, read
the next chunk, normalise its line terminators, append, repeat. -/
def sseLoop (st : SseState) : List String → Except String SseState
  | [] => drainNow st
  | c :: rest =>
    match drainNow st with
    | .error m => .error m
    | .ok st' => sseLoop ⟨st'.buffer ++ normChars c.data, st'.acc⟩ rest

/-- After the source is exhausted: flush a non-blank unterminated remainder
as one final block (source line 224). -/
def finalizeStream (st : SseState) : Except String AccState :=
  if !(jsTrimL st.buffer).isEmpty then flushEventBlock st.acc st.buffer
  else .ok st.acc

/-- Final-text resolution (source lines 226–232). -/
def resolveFinalText (acc : AccState) : String :=
  let streamedText := String.join acc.textChunks
  if jsTrim acc.doneText != "" && jsLength acc.doneText ≥ jsLength streamedText then
    acc.doneText
  else if jsTrim streamedText != "" then streamedText
  else if jsTrim acc.doneText != "" then acc.doneText
  else jsStringOrEmpty (extractResponseText (acc.completedResponse.getD Json.null))

/-- Run the decode loop and the final flush, producing the accumulator. -/
def runDecode (initialBuffer : String) (chunks : List String) : Except String AccState :=
  match sseLoop ⟨initialBuffer.data, AccState.init⟩ chunks with
  | .error m => .error m
  | .ok st => finalizeStream st

/-- The full stream decoder: chunks in, resolved final text (or a thrown
error message) out. -/
def readSseTextStream (initialBuffer : String) (chunks : List String) :
    Except String String :=
  match runDecode initialBuffer chunks with
  | .error m => .error m
  | .ok acc => .ok (resolveFinalText acc)

/-! ## Response mode sniffing and reading (`options.js` `readResponseText`) -/

/-- Does the trimmed normalised first chunk start with an opening brace or
an opening bracket (the JSON-document signal of source line 246)? -/
def looksLikeJsonB (normalizedFirst : List Char) : Bool :=
  let trimmed := jsTrimStartL normalizedFirst
  prefixB "\x7b".data trimmed || prefixB "[".data trimmed

/-- The event-stream signals of source lines 247–252. -/
def looksLikeSseB (normalizedFirst : List Char) : Bool :=
  let trimmed := jsTrimStartL normalizedFirst
  prefixB "data:".data trimmed || prefixB "event:".data trimmed ||
    prefixB ":".data trimmed ||
    containsSub "\ndata:".data normalizedFirst ||
    containsSub "\nevent:".data normalizedFirst

/-- Classification result of the response mode sniffer. -/
inductive SniffMode where
  | json
  | eventStream
deriving DecidableEq, Repr

/-- The sniffer's decision for a first chunk: event-stream exactly when the
SSE signals fire and the JSON signal does not. -/
def sniffMode (firstChunk : String) : SniffMode :=
  let n := normChars firstChunk.data
  if looksLikeSseB n && !looksLikeJsonB n then .eventStream else .json

/-- The complete buffered body accumulated by the non-streaming path of
`readResponseText`: the normalised first chunk followed by the remaining
chunks verbatim (they are not re-normalised, source line 264). -/
def bufferedBody (chunks : List String) : String :=
  ⟨normChars (chunks.headD "").data ++
    (if chunks.isEmpty then [] else (chunks.tail.map String.data).flatten)⟩

/-- Read and interpret a response body delivered as a list of chunks
(source lines 235–286).  An empty chunk list models a stream whose first
read is already done. -/
def readResponseText (chunks : List String) : Except String Json :=
  let firstDone := chunks.isEmpty
  let firstChunk := chunks.headD ""
  let normalizedFirst := normChars firstChunk.data
  let lJson := looksLikeJsonB normalizedFirst
  let lSse := looksLikeSseB normalizedFirst
  if !firstDone && lSse && !lJson then
    match readSseTextStream ⟨normalizedFirst⟩ chunks.tail with
    | .error m => .error m
    | .ok s => .ok (.str s)
  else if lSse && !lJson then
    match readSseTextStream "" [bufferedBody chunks] with
    | .error m => .error m
    | .ok s => .ok (.str s)
  else
    match jsonParse (bufferedBody chunks) with
    | none => .error "Invalid JSON response from API."
    | some data => .ok (extractResponseText data)

/-! ## The CHAT message handler (`options.js` lines 315–399) -/

/-- A JavaScript `Error` as observed by the handler's catch block. -/
structure JsError where
  name : String
  message : String
deriving DecidableEq, Repr

/-- JavaScript `Error.prototype.toString`, the value of `String(err)`. -/
def jsErrorToString (e : JsError) : String :=
  if e.name = "" then e.message
  else if e.message = "" then e.name
  else e.name ++ ": " ++ e.message

/-- The catch block's abort classification (source lines 379–382). -/
def isAbortErr (e : JsError) : Bool :=
  e.name == "AbortError" || containsCI e.message "aborted" ||
    containsCI (jsErrorToString e) "abort"

/-- The normalized result sent back to the caller. -/
inductive ChatResult where
  | ok (content : String)
  | failed (error : String)
  | cancelled
deriving DecidableEq, Repr

/-- The catch block (source lines 378–392). -/
def catchChatError (e : JsError) : ChatResult :=
  if isAbortErr e then .cancelled
  else
    let rawMsg := if e.message != "" then e.message else jsErrorToString e
    let msg := if rawMsg == "Failed to fetch" then
        "Network error: Failed to fetch (temporary connection issue or API unreachable)."
      else rawMsg
    .failed (if msg != "" then msg else "Request failed.")

/-- The non-2xx branch (source lines 356–373). -/
def httpErrorResult (status : Nat) (statusText bodyText : String) : ChatResult :=
  let fallbackMsg := "HTTP " ++ toString status ++ ": " ++
      (if bodyText != "" then bodyText else statusText)
  match jsonParse bodyText with
  | some maybe =>
    match optStr ((maybe.getField "error").bind (·.getField "message")) with
    | some m =>
      if jsTrim m != "" then .failed ("HTTP " ++ toString status ++ ": " ++ m)
      else .failed fallbackMsg
    | none => .failed fallbackMsg
  | none => .failed fallbackMsg

/-- An HTTP response as seen by the handler: `ok`/`status`/`statusText` and
the body reader's successive chunks. -/
structure HttpResponse where
  ok : Bool
  status : Nat
  statusText : String
  bodyChunks : List String
deriving DecidableEq, Repr

/-- The handler's treatment of a completed fetch: HTTP-status error path, or
body decode with the catch block around it. -/
def handleChatResponse (res : HttpResponse) : ChatResult :=
  if !res.ok then httpErrorResult res.status res.statusText (String.join res.bodyChunks)
  else
    match readResponseText res.bodyChunks with
    | .ok content => .ok (jsStringOrEmpty content)
    | .error m => catchChatError ⟨"Error", m⟩

/-! ## The transport retrier (`options.js` `fetchWithRetry`) -/

/-- Outcome of one transport attempt; `signalAborted` is the value of
`options.signal.aborted` observed in the catch. -/
inductive AttemptOutcome where
  | success (res : HttpResponse)
  | failure (e : JsError) (signalAborted : Bool)
deriving DecidableEq, Repr

deriving instance DecidableEq for Except

/-- Observable trace of a retry run: the value returned or error thrown, the
number of attempts made, and the sleep durations in order. -/
structure RetryTrace where
  result : Except JsError HttpResponse
  attempts : Nat
  delays : List Nat
deriving DecidableEq, Repr

/-- The retry loop of source lines 86–96, at attempt index `attempt` with
`remaining` loop iterations left.  `remaining = 0` is never reached from
`fetchWithRetry` (the loop bound is `retries + 1 ≥ 1`). -/
def retryAux (transport : Nat → AttemptOutcome) (retryDelayMs : Nat) :
    Nat → Nat → RetryTrace
  | _, 0 => ⟨.error ⟨"", ""⟩, 0, []⟩
  | attempt, remaining + 1 =>
    match transport attempt with
    | .success r => ⟨.ok r, 1, []⟩
    | .failure e ab =>
      if ab || e.name == "AbortError" then ⟨.error e, 1, []⟩
      else
        match remaining with
        | 0 => ⟨.error e, 1, []⟩
        | r + 1 =>
          let rest := retryAux transport retryDelayMs (attempt + 1) (r + 1)
          ⟨rest.result, rest.attempts + 1, retryDelayMs * (attempt + 1) :: rest.delays⟩

/-- The retrier `fetchWithRetry` (source lines 83–98): up to `retries + 1` attempts. -/
def fetchWithRetry (transport : Nat → AttemptOutcome) (retries retryDelayMs : Nat) :
    RetryTrace :=
  retryAux transport retryDelayMs 0 (retries + 1)

/-! ## The request lifecycle registry (`inflightChats`) -/

/-- The `inflightChats` map: request id to controller (identified by an
opaque number). -/
abbrev Registry := List (String × Nat)

/-- JavaScript `Map.prototype.get`. -/
def registryGet (reg : Registry) (requestId : String) : Option Nat :=
  (reg.find? (fun e => e.1 == requestId)).map (·.2)

/-- JavaScript `Map.prototype.delete`; deleting an absent key is a no-op. -/
def registryDelete (reg : Registry) (requestId : String) : Registry :=
  reg.filter (fun e => e.1 != requestId)

/-- Observable outcome of the CANCEL_CHAT handler (source lines 302–313):
the updated registry, the `aborted` flag of the response, and the controller
whose `abort()` was invoked, if any. -/
structure CancelOutcome where
  reg : Registry
  responseAborted : Bool
  signalled : Option Nat
deriving DecidableEq, Repr

/-- The CANCEL_CHAT handler. -/
def cancelChat (reg : Registry) (requestId : String) : CancelOutcome :=
  match registryGet reg requestId with
  | some c => ⟨registryDelete reg requestId, true, some c⟩
  | none => ⟨reg, false, none⟩

/-- The CHAT handler's `finally` block (source line 394): unconditional
removal. -/
def retireChat (reg : Registry) (requestId : String) : Registry :=
  registryDelete reg requestId

/-! ## The auth-header builder (`shared/config.js` `buildAuthHeaders`) -/

/-- The test of the regex literal `/^Bearer\\s+/i` appearing in the source.
The doubled backslash makes `\\s` match a literal backslash character
followed by `s` (case-insensitively, one or more times via `+`), not
whitespace. -/
def bearerPrefixTest (t : String) : Bool :=
  match t.data with
  | b :: e1 :: a :: r1 :: e2 :: r2 :: rest =>
    b.toLower == 'b' && e1.toLower == 'e' && a.toLower == 'a' &&
    r1.toLower == 'r' && e2.toLower == 'e' && r2.toLower == 'r' &&
    (match rest with
     | '\\' :: s1 :: _ => s1.toLower == 's'
     | _ => false)
  | _ => false

/-- The builder `buildAuthHeaders`: the `Authorization` header value, or `none` when the
trimmed token is empty (no header sent). -/
def buildAuthHeaders (token : String) : Option String :=
  let t := jsTrim token
  if t == "" then none
  else if bearerPrefixTest t then some t
  else some ("Bearer " ++ t)

/-! ## Definitions taken from the specification's wording, for comparison
with the code's behaviour -/

/-- A string is blank when trimming whitespace leaves nothing. -/
def isBlank (s : String) : Bool :=
  jsTrim s == ""

/-- Modelled from the words of claim C1: the final-text precedence
(i)–(v) with plain non-emptiness tests ("the declared done-text if it is
non-empty and its length is at least …; otherwise the concatenation of the
incremental chunks if non-empty; …"). -/
def resolveFinalTextClaimC1 (acc : AccState) : String :=
  let joined := String.join acc.textChunks
  if acc.doneText != "" && jsLength acc.doneText ≥ jsLength joined then acc.doneText
  else if joined != "" then joined
  else if acc.doneText != "" then acc.doneText
  else
    match acc.completedResponse with
    | some env => jsStringOrEmpty (extractResponseText env)
    | none => ""

/-- The final-text precedence as amended: each of (i)–(iii) tests
non-blankness (non-empty after trimming whitespace) instead of plain
non-emptiness, lengths measured in UTF-16 code units. -/
def resolveFinalTextSpec (acc : AccState) : String :=
  let joined := String.join acc.textChunks
  if !isBlank acc.doneText && jsLength acc.doneText ≥ jsLength joined then acc.doneText
  else if !isBlank joined then joined
  else if !isBlank acc.doneText then acc.doneText
  else
    match acc.completedResponse with
    | some env => jsStringOrEmpty (extractResponseText env)
    | none => ""

/-- No boundary between adjacent chunks separates a `"\r\n"` pair (the
chunk-partition condition of the amended claim C2). -/
def noCrlfSplit : List String → Bool
  | [] => true
  | c :: rest =>
    !(c.data.getLast? == some '\r' &&
      ((rest.map String.data).flatten).head? == some '\n') &&
    noCrlfSplit rest

/-- Does the line start with one of the given field prefixes? -/
def lineStartsWithAny (prefixes : List String) (l : List Char) : Bool :=
  prefixes.any (fun p => prefixB p.data l)

/-- Modelled from the words of claim C7: json when the trimmed text starts
with a brace or bracket; else event-stream when the trimmed text starts with
`data:`, `event:` or `:`, or any line begins with one of those prefixes;
else json. -/
def sniffModeClaimC7 (firstChunk : String) : SniffMode :=
  let n := normChars firstChunk.data
  let trimmed := jsTrimStartL n
  if prefixB "\x7b".data trimmed || prefixB "[".data trimmed then .json
  else if lineStartsWithAny ["data:", "event:", ":"] trimmed ||
      (splitNl n).any (lineStartsWithAny ["data:", "event:", ":"]) then .eventStream
  else .json

/-- The sniffer contract as amended: only lines after the first are
consulted, and only for the `data:` and `event:` prefixes — a non-initial
line beginning with `:` does not trigger event-stream classification. -/
def sniffModeSpec (firstChunk : String) : SniffMode :=
  let n := normChars firstChunk.data
  let trimmed := jsTrimStartL n
  if prefixB "\x7b".data trimmed || prefixB "[".data trimmed then .json
  else if lineStartsWithAny ["data:", "event:", ":"] trimmed ||
      (splitNl n).tail.any (lineStartsWithAny ["data:", "event:"]) then .eventStream
  else .json

/-- Modelled from the words of claim C6: when the first chunk classifies as
event-stream but event-stream extraction yields no usable text, fall back to
parsing the complete buffered body as one JSON document. -/
def readResponseTextClaimC6 (chunks : List String) : Except String Json :=
  let firstChunk := chunks.headD ""
  let n := normChars firstChunk.data
  if !chunks.isEmpty && looksLikeSseB n && !looksLikeJsonB n then
    match readSseTextStream ⟨n⟩ chunks.tail with
    | .error m => .error m
    | .ok s =>
      if s != "" then .ok (.str s)
      else
        match jsonParse (bufferedBody chunks) with
        | none => .error "Invalid JSON response from API."
        | some d => .ok (extractResponseText d)
  else readResponseText chunks

/-- Does the token start with `Bearer` followed by at least one whitespace
character, case-insensitively? (The recognised scheme prefix described by
the spec.) -/
def hasBearerWsP (t : String) : Bool :=
  match t.data with
  | b :: e1 :: a :: r1 :: e2 :: r2 :: w :: _ =>
    b.toLower == 'b' && e1.toLower == 'e' && a.toLower == 'a' &&
    r1.toLower == 'r' && e2.toLower == 'e' && r2.toLower == 'r' &&
    isJsWhitespace w
  | _ => false

/-- Modelled from the spec (§6): pass the bearer token through unchanged
when it already carries the recognised scheme prefix, otherwise prefix it
with `Bearer `. -/
def buildAuthHeadersSpec (token : String) : Option String :=
  let t := jsTrim token
  if t == "" then none
  else if hasBearerWsP t then some t
  else some ("Bearer " ++ t)

/-- Does the string contain no newline? -/
def noNewline (s : String) : Bool :=
  !(s.data.any (· == '\n'))

/-! ## Concrete event streams and bodies used in the claim theorems -/

/-- Deltas `"Hel"`, `"lo"`, then done-text `"Hello"` — the worked example of
claim C1. -/
def helloChunks : List String :=
  ["data: \x7b\"type\":\"response.output_text.delta\",\"delta\":\"Hel\"\x7d\n\n",
   "data: \x7b\"type\":\"response.output_text.delta\",\"delta\":\"lo\"\x7d\n\n",
   "data: \x7b\"type\":\"response.output_text.done\",\"text\":\"Hello\"\x7d\n\n"]

/-- A single event whose delta is the one-character whitespace string. -/
def spaceDeltaChunk : String :=
  "data: \x7b\"type\":\"response.output_text.delta\",\"delta\":\" \"\x7d\n\n"

/-- Two raw `data:` events split so that the boundary falls inside the
`"\r\n"` pair terminating the first line. -/
def crlfSplitChunks : List String :=
  ["data: hi\r", "\ndata: there\n\n"]

/-- The explicit error event payload of claim C3. -/
def rateLimitedPayload : String :=
  "\x7b\"type\":\"response.error\",\"error\":\x7b\"message\":\"rate limited\"\x7d\x7d"

/-- A 200 response streaming the rate-limited error event. -/
def rateLimitedResponse : HttpResponse :=
  ⟨true, 200, "OK", ["data: " ++ rateLimitedPayload ++ "\n\n"]⟩

/-- A 200 response streaming an error event whose carried message matches
the handler's abort classification. -/
def abortedEventResponse : HttpResponse :=
  ⟨true, 200, "OK",
   ["data: \x7b\"type\":\"response.error\",\"error\":\x7b\"message\":\"aborted\"\x7d\x7d\n\n"]⟩

/-- A 200 response streaming an error event whose carried message is the
literal transport message "Failed to fetch", exercising the catch block's
rewrite to the network diagnostic. -/
def failedFetchEventResponse : HttpResponse :=
  ⟨true, 200, "OK",
   ["data: \x7b\"type\":\"response.error\",\"error\":\x7b\"message\":\"Failed to fetch\"\x7d\x7d\n\n"]⟩

/-- A 400 response whose error body carries an abort-flavoured message. -/
def abortedHttpResponse : HttpResponse :=
  ⟨false, 400, "Bad Request", ["\x7b\"error\":\x7b\"message\":\"aborted by peer\"\x7d\x7d"]⟩

/-- A body that classifies as event-stream but yields no usable text. -/
def sseNoTextChunk : String := "event: foo\n\n"

/-- The parsed form of `rateLimitedPayload`. -/
def rateLimitedJson : Json :=
  .obj [("type", .str "response.error"),
        ("error", .obj [("message", .str "rate limited")])]

/-! # Theorems

Helper lemmas first, then one theorem per claim (with witnesses and
counterexamples where required). -/

/-! ## Registry lemmas -/

theorem registryGet_delete (reg : Registry) (id : String) :
    registryGet (registryDelete reg id) id = none := by
  induction reg with
  | nil => rfl
  | cons e t ih =>
    by_cases h : e.1 = id
    · simp only [registryDelete, List.filter_cons, h]
      simpa [registryDelete] using ih
    · simp only [registryDelete, registryGet, List.filter_cons, List.find?_cons, h] at ih ⊢
      simp only [bne_iff_ne, ne_eq, h, not_false_eq_true, if_true, List.find?_cons,
        show (e.1 == id) = false from by simpa using h]
      exact ih

theorem registryDelete_idem (reg : Registry) (id : String) :
    registryDelete (registryDelete reg id) id = registryDelete reg id := by
  simp [registryDelete, List.filter_filter]

theorem registryDelete_of_get_none (reg : Registry) (id : String)
    (h : registryGet reg id = none) : registryDelete reg id = reg := by
  induction reg with
  | nil => rfl
  | cons e t ih =>
    by_cases he : e.1 = id
    · simp [registryGet, List.find?_cons, he] at h
    · have h' : registryGet t id = none := by
        simpa [registryGet, List.find?_cons, he] using h
      simp [registryDelete, List.filter_cons, he] at ih ⊢
      exact ih h'

/-- C5: cancel on a registered requestId triggers the handle's cancellation,
removes the entry and reports a live entry; cancel on an absent requestId is
a reported no-op; retire removes the entry unconditionally; and in either
interleaving of completion and cancellation the entry is removed exactly
once, the second path observing absence and no-opping. -/
theorem thmC5 :
    (∀ (reg : Registry) (id : String) (c : Nat), registryGet reg id = some c →
      cancelChat reg id = ⟨registryDelete reg id, true, some c⟩ ∧
      registryGet (cancelChat reg id).reg id = none) ∧
    (∀ (reg : Registry) (id : String), registryGet reg id = none →
      cancelChat reg id = ⟨reg, false, none⟩) ∧
    (∀ (reg : Registry) (id : String), registryGet (retireChat reg id) id = none) ∧
    (∀ (reg : Registry) (id : String),
      retireChat (cancelChat reg id).reg id = (cancelChat reg id).reg ∧
      cancelChat (retireChat reg id) id = ⟨retireChat reg id, false, none⟩) := by
  refine ⟨?_, ?_, ?_, ?_⟩
  · intro reg id c h
    refine ⟨by simp [cancelChat, h], ?_⟩
    simp [cancelChat, h, registryGet_delete]
  · intro reg id h
    simp [cancelChat, h]
  · intro reg id
    exact registryGet_delete reg id
  · intro reg id
    constructor
    · cases h : registryGet reg id with
      | some c => simp [cancelChat, h, retireChat, registryDelete_idem]
      | none =>
        simp only [cancelChat, h]
        exact registryDelete_of_get_none reg id h
    · have h := registryGet_delete reg id
      simp [cancelChat, retireChat, h]

/-- C5 witness: the theorem instantiated on a one-entry registry. -/
theorem witC5 :
    cancelChat [("r1", 7)] "r1" = ⟨registryDelete [("r1", 7)] "r1", true, some 7⟩ ∧
    cancelChat [("r1", 7)] "r2" = ⟨[("r1", 7)], false, none⟩ :=
  ⟨(thmC5.1 [("r1", 7)] "r1" 7 (by decide)).1, thmC5.2.1 [("r1", 7)] "r2" (by decide)⟩

/-- C9: the source's regex literal `/^Bearer\\s+/i` contains a doubled
backslash, so it matches "Bearer" followed by a literal backslash and `s`,
never "Bearer" followed by whitespace; a token that already carries the
scheme prefix is therefore prefixed again, contradicting the documented
pass-through.  The intended behaviour (`buildAuthHeadersSpec`) differs at
the same input. -/
theorem thmC9 :
    buildAuthHeaders "Bearer abc" = some "Bearer Bearer abc" ∧
    bearerPrefixTest "Bearer abc" = false ∧
    bearerPrefixTest "Bearer\\ss" = true ∧
    buildAuthHeadersSpec "Bearer abc" = some "Bearer abc" :=
  ⟨rfl, rfl, rfl, rfl⟩

/-! ## Retry lemmas (claim C4) -/

theorem retryAux_succ (t : Nat → AttemptOutcome) (d att rem : Nat) :
    retryAux t d att (rem + 1) =
      (match t att with
       | .success r => ⟨.ok r, 1, []⟩
       | .failure e ab =>
         if ab || e.name == "AbortError" then ⟨.error e, 1, []⟩
         else
           match rem with
           | 0 => ⟨.error e, 1, []⟩
           | r + 1 =>
             let rest := retryAux t d (att + 1) (r + 1)
             ⟨rest.result, rest.attempts + 1, d * (att + 1) :: rest.delays⟩) := by
  conv_lhs => rw [retryAux]

theorem retryAux_attempts_le (t : Nat → AttemptOutcome) (d : Nat) :
    ∀ (rem att : Nat), (retryAux t d att rem).attempts ≤ rem := by
  intro rem
  induction rem with
  | zero => intro att; exact Nat.le_refl 0
  | succ r ih =>
    intro att
    rw [retryAux_succ]
    cases t att with
    | success res => simp
    | failure e ab =>
      by_cases hab : (ab || e.name == "AbortError") = true
      · simp [hab]
      · cases r with
        | zero => simp [hab]
        | succ r' =>
          simp only [hab, Bool.false_eq_true, if_false]
          exact Nat.succ_le_succ (ih (att + 1))

/-- Every run with a positive iteration budget makes at least one attempt. -/
theorem retryAux_attempts_pos (t : Nat → AttemptOutcome) (d : Nat) :
    ∀ (rem att : Nat), 1 ≤ (retryAux t d att (rem + 1)).attempts := by
  intro rem att
  rw [retryAux_succ]
  cases t att with
  | success res => simp
  | failure e ab =>
    by_cases hab : (ab || e.name == "AbortError") = true
    · simp [hab]
    · cases rem with
      | zero => simp [hab]
      | succ r' => simp [hab]

theorem retryAux_delays (t : Nat → AttemptOutcome) (d : Nat) :
    ∀ (rem att : Nat), (retryAux t d att rem).delays =
      (List.range ((retryAux t d att rem).attempts - 1)).map (fun k => d * (att + k + 1)) := by
  intro rem
  induction rem with
  | zero => intro att; rfl
  | succ r ih =>
    intro att
    rw [retryAux_succ]
    cases t att with
    | success res => simp
    | failure e ab =>
      by_cases hab : (ab || e.name == "AbortError") = true
      · simp [hab]
      · cases r with
        | zero => simp [hab]
        | succ r' =>
          simp only [hab, Bool.false_eq_true, if_false]
          have hpos := retryAux_attempts_pos t d r' (att + 1)
          obtain ⟨n, hn⟩ : ∃ n, (retryAux t d (att + 1) (r' + 1)).attempts = n + 1 :=
            ⟨(retryAux t d (att + 1) (r' + 1)).attempts - 1, (Nat.succ_pred_eq_of_pos hpos).symm⟩
          have h := ih (att + 1)
          rw [hn] at h
          simp only [Nat.add_sub_cancel] at h
          simp only [hn, Nat.add_sub_cancel, h, List.range_succ_eq_map, List.map_cons,
            List.map_map, List.cons.injEq]
          refine ⟨by ring_nf, ?_⟩
          apply List.map_congr_left
          intro k _
          simp only [Function.comp_apply, Nat.succ_eq_add_one]
          ring

theorem retryAux_abort (t : Nat → AttemptOutcome) (d : Nat) :
    ∀ (j rem att : Nat) (e : JsError) (ab : Bool), j < rem →
      (∀ i, i < j → ∃ ei, t (att + i) = .failure ei false ∧ (ei.name == "AbortError") = false) →
      t (att + j) = .failure e ab → (ab || e.name == "AbortError") = true →
      retryAux t d att rem = ⟨.error e, j + 1, (List.range j).map (fun k => d * (att + k + 1))⟩ := by
  intro j
  induction j with
  | zero =>
    intro rem att e ab hlt hpre ht hab
    obtain ⟨rm, rfl⟩ : ∃ rm, rem = rm + 1 := ⟨rem - 1, (Nat.succ_pred_eq_of_pos hlt).symm⟩
    rw [Nat.add_zero] at ht
    rw [retryAux_succ, ht]
    simp [hab]
  | succ jj ih =>
    intro rem att e ab hlt hpre ht hab
    obtain ⟨rm, rfl⟩ : ∃ rm, rem = rm + 1 :=
      ⟨rem - 1, (Nat.succ_pred_eq_of_pos (Nat.lt_of_le_of_lt (Nat.zero_le _) hlt)).symm⟩
    obtain ⟨e0, ht0, hn0⟩ := hpre 0 (Nat.succ_pos jj)
    rw [Nat.add_zero] at ht0
    rw [retryAux_succ, ht0]
    simp only [Bool.false_or, hn0, Bool.false_eq_true, if_false]
    obtain ⟨rr, rfl⟩ : ∃ rr, rm = rr + 1 := ⟨rm - 1, by omega⟩
    have hrec := ih (rr + 1) (att + 1) e ab (by omega)
      (fun i hi => by
        obtain ⟨ei, h1, h2⟩ := hpre (i + 1) (Nat.succ_lt_succ hi)
        refine ⟨ei, ?_, h2⟩
        have hadd : att + 1 + i = att + (i + 1) := by omega
        rw [hadd]
        exact h1)
      (by
        have hadd : att + 1 + jj = att + (jj + 1) := by omega
        rw [hadd]
        exact ht) hab
    have hd : (List.range (jj + 1)).map (fun k => d * (att + k + 1)) =
        d * (att + 1) :: (List.range jj).map (fun k => d * (att + 1 + k + 1)) := by
      rw [List.range_succ_eq_map, List.map_cons, List.map_map]
      simp only [List.cons.injEq]
      refine ⟨by ring_nf, ?_⟩
      apply List.map_congr_left
      intro k _
      simp only [Function.comp_apply, Nat.succ_eq_add_one]
      ring
    simp [hrec, hd]

theorem retryAux_exhaust (t : Nat → AttemptOutcome) (d : Nat) (e : Nat → JsError) :
    ∀ (rem att : Nat),
      (∀ i, i < rem + 1 → t (att + i) = .failure (e (att + i)) false ∧
        ((e (att + i)).name == "AbortError") = false) →
      retryAux t d att (rem + 1) =
        ⟨.error (e (att + rem)), rem + 1, (List.range rem).map (fun k => d * (att + k + 1))⟩ := by
  intro rem
  induction rem with
  | zero =>
    intro att h
    obtain ⟨h1, h2⟩ := h 0 Nat.zero_lt_one
    rw [Nat.add_zero] at h1 h2
    rw [retryAux_succ, h1]
    simp [h2]
  | succ rm ih =>
    intro att h
    obtain ⟨h1, h2⟩ := h 0 (Nat.succ_pos _)
    rw [Nat.add_zero] at h1 h2
    rw [retryAux_succ, h1]
    simp only [Bool.false_or, h2, Bool.false_eq_true, if_false]
    have hrec := ih (att + 1) (fun i hi => by
      have hadd : att + 1 + i = att + (i + 1) := by omega
      rw [hadd]
      exact h (i + 1) (Nat.succ_lt_succ hi))
    have hv : att + 1 + rm = att + (rm + 1) := by omega
    have hd : (List.range (rm + 1)).map (fun k => d * (att + k + 1)) =
        d * (att + 1) :: (List.range rm).map (fun k => d * (att + 1 + k + 1)) := by
      rw [List.range_succ_eq_map, List.map_cons, List.map_map]
      simp only [List.cons.injEq]
      refine ⟨by ring_nf, ?_⟩
      apply List.map_congr_left
      intro k _
      simp only [Function.comp_apply, Nat.succ_eq_add_one]
      ring
    simp [hrec, hd, hv]

/-- C4: the transport retrier makes at most `retries + 1` attempts; the
delay before attempt `k ≥ 2` is `baseDelay × (k − 1)` (the delay list is
`[d·1, d·2, …]`); an aborted failure (signal already triggered or an
AbortError) is re-thrown immediately with no further attempts; and when
every attempt fails non-aborted the budget is exhausted and the last
observed failure is thrown after exactly `retries + 1` attempts. -/
theorem thmC4 (t : Nat → AttemptOutcome) (retries d : Nat) :
    (fetchWithRetry t retries d).attempts ≤ retries + 1 ∧
    (fetchWithRetry t retries d).delays =
      (List.range ((fetchWithRetry t retries d).attempts - 1)).map (fun k => d * (k + 1)) ∧
    (∀ (j : Nat) (e : JsError) (ab : Bool), j ≤ retries →
      (∀ i, i < j → ∃ ei, t i = .failure ei false ∧ (ei.name == "AbortError") = false) →
      t j = .failure e ab → (ab || e.name == "AbortError") = true →
      fetchWithRetry t retries d =
        ⟨.error e, j + 1, (List.range j).map (fun k => d * (k + 1))⟩) ∧
    (∀ e : Nat → JsError,
      (∀ i, i ≤ retries → t i = .failure (e i) false ∧ ((e i).name == "AbortError") = false) →
      fetchWithRetry t retries d =
        ⟨.error (e retries), retries + 1, (List.range retries).map (fun k => d * (k + 1))⟩) := by
  refine ⟨retryAux_attempts_le t d (retries + 1) 0, ?_, ?_, ?_⟩
  · have h := retryAux_delays t d (retries + 1) 0
    simpa [fetchWithRetry] using h
  · intro j e ab hle hpre ht hab
    have h := retryAux_abort t d j (retries + 1) 0 e ab (Nat.lt_succ_of_le hle)
      (fun i hi => by simpa using hpre i hi) (by simpa using ht) hab
    simpa [fetchWithRetry] using h
  · intro e he
    have h := retryAux_exhaust t d e retries 0 (fun i hi => by
      simpa using he i (Nat.lt_succ_iff.mp hi))
    simpa [fetchWithRetry] using h

/-- C4 witness: under `retries = 1` a transport that always fails
non-aborted yields the last failure after exactly 2 attempts, with one
350 ms delay. -/
theorem witC4 :
    fetchWithRetry (fun _ => .failure ⟨"TypeError", "boom"⟩ false) 1 350 =
      ⟨.error ⟨"TypeError", "boom"⟩, 2, [350]⟩ := by
  have h := (thmC4 (fun _ => .failure ⟨"TypeError", "boom"⟩ false) 1 350).2.2.2
    (fun _ => ⟨"TypeError", "boom"⟩) (fun i _ => ⟨rfl, rfl⟩)
  simpa using h

/-! ## Final-text resolution (claim C1) -/

theorem resolveFinalText_eq_spec (acc : AccState) :
    resolveFinalText acc = resolveFinalTextSpec acc := by
  obtain ⟨tc, dt, cr⟩ := acc
  cases cr <;> rfl

/-- C1 (amended): after the byte source is exhausted (a non-blank
unterminated remainder flushed as one final block), the decoder's final text
follows the precedence (i)–(v) with the emptiness tests read as
non-blankness (non-empty after trimming whitespace): done-text if non-blank
and at least as long as the concatenated chunks; else the concatenation if
non-blank; else done-text if non-blank; else the whole-document extraction
of the final envelope; else empty.  The deltas `"Hel"`, `"lo"` followed by
done-text `"Hello"` resolve to `"Hello"`. -/
theorem thmC1 :
    (∀ (initialBuffer : String) (chunks : List String) (acc : AccState),
      runDecode initialBuffer chunks = .ok acc →
      readSseTextStream initialBuffer chunks = .ok (resolveFinalTextSpec acc)) ∧
    readSseTextStream "" helloChunks = .ok "Hello" := by
  constructor
  · intro initialBuffer chunks acc h
    unfold readSseTextStream
    rw [h]
    simp only [resolveFinalText_eq_spec]
  · rfl

/-- C1 witness: the worked example, with its accumulator exposed. -/
theorem witC1 :
    runDecode "" helloChunks = .ok ⟨["Hel", "lo"], "Hello", none⟩ ∧
    readSseTextStream "" helloChunks = .ok (resolveFinalTextSpec ⟨["Hel", "lo"], "Hello", none⟩) :=
  ⟨rfl, thmC1.1 "" helloChunks ⟨["Hel", "lo"], "Hello", none⟩ rfl⟩

/-- C1 counterexample to the claim as stated: a stream whose only delta is
the one-character whitespace string.  Its chunk concatenation `" "` is
non-empty, so the claim's precedence (ii) yields `" "`, but the decoder
returns `""` (the code tests trimmed non-emptiness, not non-emptiness). -/
theorem cexC1 :
    runDecode "" [spaceDeltaChunk] = .ok ⟨[" "], "", none⟩ ∧
    readSseTextStream "" [spaceDeltaChunk] = .ok "" ∧
    resolveFinalTextClaimC1 ⟨[" "], "", none⟩ = " " ∧
    (" " : String) ≠ "" :=
  ⟨rfl, rfl, rfl, by decide⟩

/-! ## Substring lemmas (claim C10) -/

theorem prefixB_trans : ∀ {a b c : List Char},
    prefixB a b = true → prefixB b c = true → prefixB a c = true := by
  intro a
  induction a with
  | nil => intro b c _ _; rfl
  | cons x as ih =>
    intro b c hab hbc
    cases b with
    | nil => exact absurd hab (by simp [prefixB])
    | cons y bs =>
      cases c with
      | nil => exact absurd hbc (by simp [prefixB])
      | cons z cs =>
        simp only [prefixB, Bool.and_eq_true, beq_iff_eq] at hab hbc ⊢
        exact ⟨hab.1.trans hbc.1, ih hab.2 hbc.2⟩

theorem containsSub_nil_needle (l : List Char) : containsSub [] l = true := by
  cases l <;> simp [containsSub, prefixB]

theorem containsSub_mono {n₁ n₂ : List Char} (h : List Char)
    (hp : prefixB n₁ n₂ = true) (hc : containsSub n₂ h = true) :
    containsSub n₁ h = true := by
  induction h with
  | nil =>
    simp only [containsSub, List.isEmpty_iff] at hc ⊢
    subst hc
    cases n₁ with
    | nil => rfl
    | cons _ _ => simp [prefixB] at hp
  | cons c rest ih =>
    simp only [containsSub, Bool.or_eq_true] at hc ⊢
    cases hc with
    | inl h1 => exact Or.inl (prefixB_trans hp h1)
    | inr h2 => exact Or.inr (ih h2)

theorem containsSub_append_left (pre : List Char) {n l : List Char}
    (h : containsSub n l = true) : containsSub n (pre ++ l) = true := by
  induction pre with
  | nil => exact h
  | cons c cs ih =>
    simp only [List.cons_append, containsSub, Bool.or_eq_true]
    exact Or.inr ih

/-- A case-insensitive match inside the message is also one inside
`String(err)`: the `Error` string form is the message itself, or the name,
or `name ++ ": " ++ message`. -/
theorem containsCI_msg_le_toString (e : JsError) (pat : String)
    (h : containsCI e.message pat = true) :
    containsCI (jsErrorToString e) pat = true := by
  unfold containsCI jsErrorToString at *
  by_cases hn : e.name = ""
  · simpa [hn] using h
  · by_cases hm : e.message = ""
    · rw [hm] at h
      have hz : (pat.data.map Char.toLower) = [] := by
        simpa [containsSub, List.isEmpty_iff] using h
      rw [hz]
      exact containsSub_nil_needle _
    · simp only [hn, hm, if_false]
      have hdata : (e.name ++ ": " ++ e.message).data = (e.name ++ ": ").data ++ e.message.data :=
        rfl
      rw [hdata, List.map_append]
      exact containsSub_append_left _ h

/-- The code's abort test agrees with the claim's: name `AbortError`, or
`/abort/i` on the message or on the string form. -/
theorem isAbortErr_iff (e : JsError) :
    isAbortErr e = true ↔ (e.name = "AbortError" ∨ containsCI e.message "abort" = true ∨
      containsCI (jsErrorToString e) "abort" = true) := by
  unfold isAbortErr
  simp only [Bool.or_eq_true, beq_iff_eq]
  constructor
  · rintro ((h | h) | h)
    · exact Or.inl h
    · refine Or.inr (Or.inl ?_)
      unfold containsCI at h ⊢
      exact containsSub_mono _ (by decide) h
    · exact Or.inr (Or.inr h)
  · rintro (h | h | h)
    · exact Or.inl (Or.inl h)
    · exact Or.inr (containsCI_msg_le_toString e "abort" h)
    · exact Or.inr h

/-- The message built by the catch block's non-abort branch never contains
`abort` case-insensitively, given that the raw message does not. -/
theorem catch_message_no_abort (raw : String)
    (h : containsCI raw "abort" = false) :
    containsCI
      (if (if raw == "Failed to fetch" then
          "Network error: Failed to fetch (temporary connection issue or API unreachable)."
        else raw) != "" then
        (if raw == "Failed to fetch" then
          "Network error: Failed to fetch (temporary connection issue or API unreachable)."
        else raw)
       else "Request failed.") "abort" = false := by
  by_cases hf : (raw == "Failed to fetch") = true
  · simp only [hf, if_true]
    decide
  · simp only [hf, Bool.false_eq_true, if_false]
    by_cases hne : (raw != "") = true
    · simpa [hne] using h
    · simp only [hne, Bool.false_eq_true, if_false]
      decide

/-- C10 (amended): for every error thrown in the chat request path the
handler returns the cancellation marker iff the error's name is
`AbortError` or its message or string form matches `/abort/i`, and a thrown
error never yields a Failed result whose message contains `abort`
case-insensitively.  (The non-2xx HTTP-status path, which bypasses the
catch block, can still return such a Failed result — see the
counterexample.) -/
theorem thmC10 :
    (∀ e : JsError, catchChatError e = .cancelled ↔
      (e.name = "AbortError" ∨ containsCI e.message "abort" = true ∨
        containsCI (jsErrorToString e) "abort" = true)) ∧
    (∀ (e : JsError) (m : String), catchChatError e = .failed m →
      containsCI m "abort" = false) := by
  constructor
  · intro e
    rw [← isAbortErr_iff]
    unfold catchChatError
    cases hb : isAbortErr e
    · simp
    · simp
  · intro e m h
    cases hb : isAbortErr e with
    | true => simp [catchChatError, hb] at h
    | false =>
      have hcomp : containsCI (jsErrorToString e) "abort" = false := by
        cases hx : containsCI (jsErrorToString e) "abort" with
        | false => rfl
        | true =>
          have : isAbortErr e = true := (isAbortErr_iff e).mpr (Or.inr (Or.inr hx))
          rw [hb] at this
          exact absurd this (by simp)
      have hraw : containsCI (if e.message != "" then e.message else jsErrorToString e)
          "abort" = false := by
        by_cases hmsg : (e.message != "") = true
        · simp only [hmsg, if_true]
          cases hx : containsCI e.message "abort" with
          | false => rfl
          | true =>
            have := containsCI_msg_le_toString e "abort" hx
            rw [hcomp] at this
            exact absurd this (by simp)
        · simp only [hmsg, Bool.false_eq_true, if_false]
          exact hcomp
      have hm := catch_message_no_abort (if e.message != "" then e.message else jsErrorToString e) hraw
      simp only [catchChatError, hb, Bool.false_eq_true, if_false, ChatResult.failed.injEq] at h
      rw [← h]
      exact hm

/-- C10 counterexample: a 400 response whose error body carries the message
"aborted by peer" is reported as `Failed "HTTP 400: aborted by peer"` — a
Failed result containing `abort` — and not as the cancellation marker. -/
theorem cexC10 :
    handleChatResponse abortedHttpResponse = .failed "HTTP 400: aborted by peer" ∧
    containsCI "HTTP 400: aborted by peer" "abort" = true ∧
    handleChatResponse abortedHttpResponse ≠ .cancelled := by
  refine ⟨by decide, by decide, ?_⟩
  intro h
  rw [show handleChatResponse abortedHttpResponse = .failed "HTTP 400: aborted by peer"
    from by decide] at h
  exact ChatResult.noConfusion h

/-- C10 witness: the theorem applied to a concrete thrown transport error. -/
theorem witC10 :
    containsCI
      "Network error: Failed to fetch (temporary connection issue or API unreachable)."
      "abort" = false :=
  thmC10.2 ⟨"TypeError", "Failed to fetch"⟩ _ rfl

/-! ## Non-JSON, non-SSE bodies (claim C8) -/

/-- C8 (amended): a body that does not carry event-stream signals and whose
complete buffered text fails JSON parsing resolves to the structured failure
`Failed "Invalid JSON response from API."` — no unhandled fatal failure; the
whole-document extraction fallback that yields empty text applies only to
bodies that parse as JSON documents. -/
theorem thmC8 (status : Nat) (stext : String) (chunks : List String)
    (hsse : looksLikeSseB (normChars (chunks.headD "").data) = false)
    (hparse : jsonParse (bufferedBody chunks) = none) :
    handleChatResponse ⟨true, status, stext, chunks⟩ =
      .failed "Invalid JSON response from API." := by
  unfold handleChatResponse readResponseText
  simp only [hsse, hparse, Bool.and_false, Bool.false_and, Bool.not_true, Bool.false_eq_true,
    if_false, Bool.not_false, if_true]
  rfl

/-- C8 witness: the literal body `"hello world"`. -/
theorem witC8 :
    handleChatResponse ⟨true, 200, "OK", ["hello world"]⟩ =
      .failed "Invalid JSON response from API." :=
  thmC8 200 "OK" ["hello world"] (by decide) rfl

/-- C8 counterexample to the claim as stated: the literal body
`"hello world"` does not resolve to a value derived from the whole-document
extraction fallback (which would be `Ok ""`); it fails with the invalid-JSON
diagnostic. -/
theorem cexC8 :
    handleChatResponse ⟨true, 200, "OK", ["hello world"]⟩ =
      .failed "Invalid JSON response from API." ∧
    handleChatResponse ⟨true, 200, "OK", ["hello world"]⟩ ≠ .ok "" := by
  refine ⟨by decide, ?_⟩
  intro h
  rw [show handleChatResponse ⟨true, 200, "OK", ["hello world"]⟩ =
      .failed "Invalid JSON response from API." from by decide] at h
  exact ChatResult.noConfusion h

/-! ## The absent SSE-to-JSON fallback (claim C6) -/

/-- C6 (amended): once the first chunk classifies as event-stream (and the
stream is not already done), the stream decoder's result is final: the
reader returns it unchanged, and no JSON-document fallback runs even when
the extraction yields no usable text. -/
theorem thmC6 (c : String) (rest : List String)
    (hsse : looksLikeSseB (normChars c.data) = true)
    (hjson : looksLikeJsonB (normChars c.data) = false) :
    readResponseText (c :: rest) =
      match readSseTextStream ⟨normChars c.data⟩ rest with
      | .error m => .error m
      | .ok s => .ok (.str s) := by
  unfold readResponseText
  simp only [List.headD_cons, List.isEmpty_cons, List.tail_cons, hsse, hjson, Bool.not_false,
    Bool.and_true, Bool.true_and, Bool.and_self, if_true]

/-- C6 witness: the theorem applied to the concrete stream `"event: foo"`. -/
theorem witC6 :
    readResponseText [sseNoTextChunk] =
      match readSseTextStream ⟨normChars sseNoTextChunk.data⟩ [] with
      | .error m => .error m
      | .ok s => .ok (.str s) :=
  thmC6 sseNoTextChunk [] (by decide) (by decide)

/-- C6 counterexample to the claim as stated: for the body `"event: foo"`
(classified event-stream, extraction yields no text) the code returns
`Ok ""`, whereas the claimed fallback would parse the buffered body as JSON
and fail with the invalid-JSON diagnostic; the two behaviours differ. -/
theorem cexC6 :
    readResponseText [sseNoTextChunk] = .ok (.str "") ∧
    readResponseTextClaimC6 [sseNoTextChunk] = .error "Invalid JSON response from API." ∧
    (Except.ok (Json.str "") : Except String Json) ≠
      .error "Invalid JSON response from API." :=
  ⟨rfl, rfl, fun h => Except.noConfusion h⟩

/-! ## Line-structure lemmas (claim C7) -/

theorem splitNl_cons_of_ne (c : Char) (rest : List Char) (hc : ¬ c = '\n')
    (l : List Char) (ls : List (List Char)) (hs : splitNl rest = l :: ls) :
    splitNl (c :: rest) = (c :: l) :: ls := by
  simp [splitNl, hs, hc]

theorem splitNl_ne_nil : ∀ l : List Char, splitNl l ≠ [] := by
  intro l
  induction l using splitNl.induct with
  | case1 => simp [splitNl]
  | case2 rest ih => simp [splitNl]
  | case3 c rest hc hs ih => simp [splitNl, hs, hc]
  | case4 c rest hc l ls hs ih => simp [splitNl, hs, hc]

theorem splitNl_head_tail : ∀ l : List Char,
    splitNl l = (l.takeWhile (fun c => c != '\n')) :: (splitNl l).tail := by
  intro l
  induction l using splitNl.induct with
  | case1 => rfl
  | case2 rest ih => simp [splitNl, List.takeWhile_cons]
  | case3 c rest hc hs ih => exact absurd hs (splitNl_ne_nil rest)
  | case4 c rest hc l ls hs ih =>
    have hc' : ¬ c = '\n' := fun h => hc h
    have hcb : (c != '\n') = true := by simpa using hc'
    rw [hs, List.tail_cons] at ih
    have hl : l = rest.takeWhile (fun c => c != '\n') := by
      have h2 := ih
      simp only [List.cons.injEq] at h2
      exact h2.1
    rw [splitNl_cons_of_ne c rest hc' l ls hs]
    simp [List.takeWhile_cons, hcb, hl]

theorem splitNl_tail_of_ne (c : Char) (rest : List Char) (hc : ¬ c = '\n') :
    (splitNl (c :: rest)).tail = (splitNl rest).tail := by
  obtain ⟨l, ls, hs⟩ : ∃ l ls, splitNl rest = l :: ls := by
    cases h : splitNl rest with
    | nil => exact absurd h (splitNl_ne_nil rest)
    | cons a as => exact ⟨a, as, rfl⟩
  rw [splitNl_cons_of_ne c rest hc l ls hs, hs]
  rfl

theorem splitNl_any (rest : List Char) (f : List Char → Bool) :
    (splitNl rest).any f =
      (f (rest.takeWhile (fun c => c != '\n')) || (splitNl rest).tail.any f) := by
  conv_lhs => rw [splitNl_head_tail rest]
  rw [List.any_cons]

theorem prefixB_takeWhile : ∀ (p l : List Char), '\n' ∉ p →
    prefixB p l = prefixB p (l.takeWhile (fun c => c != '\n')) := by
  intro p
  induction p with
  | nil => intro l _; rfl
  | cons a p' ih =>
    intro l hp
    have ha : a ≠ '\n' := fun h => hp (h ▸ List.mem_cons_self a p')
    have hp' : '\n' ∉ p' := fun h => hp (List.mem_cons_of_mem a h)
    cases l with
    | nil => rfl
    | cons b l' =>
      by_cases hb : b = '\n'
      · subst hb
        simp only [List.takeWhile_cons, bne_self_eq_false, Bool.false_eq_true, if_false]
        simp only [prefixB, Bool.and_eq_true_iff]
        simp [show (a == '\n') = false from by simpa using ha]
      · simp only [List.takeWhile_cons, show (b != '\n') = true from by simpa using hb, if_true]
        simp only [prefixB]
        rw [ih l' hp']

theorem containsSub_nl : ∀ (p l : List Char), '\n' ∉ p →
    containsSub ('\n' :: p) l = (splitNl l).tail.any (fun ln => prefixB p ln) := by
  intro p l hp
  induction l with
  | nil => rfl
  | cons c rest ih =>
    by_cases hc : c = '\n'
    · subst hc
      have h1 : splitNl ('\n' :: rest) = [] :: splitNl rest := rfl
      simp only [containsSub, prefixB, beq_self_eq_true, Bool.true_and, h1, List.tail_cons]
      rw [splitNl_any rest, ih]
      rw [← prefixB_takeWhile p rest hp]
    · have hcb : ('\n' == c) = false := by simpa using fun h => hc h.symm
      simp only [containsSub, prefixB, hcb, Bool.false_and, Bool.false_or]
      rw [ih, splitNl_tail_of_ne c rest hc]

theorem list_any_orB (l : List (List Char)) (f g : List Char → Bool) :
    (l.any fun x => f x || g x) = (l.any f || l.any g) := by
  induction l with
  | nil => rfl
  | cons x xs ih =>
    simp only [List.any_cons, ih]
    cases f x <;> cases g x <;> cases xs.any f <;> cases xs.any g <;> rfl

/-- C7 (amended): the sniffer classifies as json when the trimmed first
chunk starts with `{` or `[`; otherwise as event-stream when the trimmed
text starts with `data:`, `event:` or `:`, or a line other than the first
begins with `data:` or `event:` (a non-initial line beginning with `:` does
not count); otherwise as json. -/
theorem thmC7 (s : String) : sniffMode s = sniffModeSpec s := by
  have hd : ("\ndata:".data : List Char) = '\n' :: "data:".data := rfl
  have he : ("\nevent:".data : List Char) = '\n' :: "event:".data := rfl
  unfold sniffMode sniffModeSpec looksLikeSseB looksLikeJsonB lineStartsWithAny
  simp only [List.any_cons, List.any_nil, Bool.or_false, hd, he,
    containsSub_nl "data:".data (normChars s.data) (by decide),
    containsSub_nl "event:".data (normChars s.data) (by decide)]
  rw [list_any_orB]
  generalize (splitNl (normChars s.data)).tail.any
    (fun ln => prefixB "data:".data ln) = ad
  generalize (splitNl (normChars s.data)).tail.any
    (fun ln => prefixB "event:".data ln) = ae
  generalize prefixB "\x7b".data (jsTrimStartL (normChars s.data)) = j1
  generalize prefixB "[".data (jsTrimStartL (normChars s.data)) = j2
  generalize prefixB "data:".data (jsTrimStartL (normChars s.data)) = pd
  generalize prefixB "event:".data (jsTrimStartL (normChars s.data)) = pe
  generalize prefixB ":".data (jsTrimStartL (normChars s.data)) = pc
  cases j1 <;> cases j2 <;> cases pd <;> cases pe <;> cases pc <;> cases ad <;> cases ae <;> rfl

/-- C7 counterexample to the claim as stated: the chunk `"x\n: hi"` contains
a line beginning with `:`, so the claim classifies it event-stream, but the
code classifies it json (it only looks for `\ndata:` and `\nevent:`). -/
theorem cexC7 :
    sniffMode "x\n: hi" = .json ∧
    sniffModeClaimC7 "x\n: hi" = .eventStream ∧
    SniffMode.json ≠ SniffMode.eventStream :=
  ⟨rfl, rfl, by decide⟩

/-! ## Chunk-boundary lemmas (claim C2) -/

theorem normChars_nil : normChars [] = [] := rfl

theorem normChars_rn (rest : List Char) :
    normChars ('\r' :: '\n' :: rest) = '\n' :: normChars rest := rfl

theorem normChars_r (c : Char) (rest : List Char) (h : ¬ c = '\n') :
    normChars ('\r' :: c :: rest) = '\n' :: normChars (c :: rest) := by
  simp [normChars, h]

theorem normChars_other (c : Char) (rest : List Char) (h : ¬ c = '\r') :
    normChars (c :: rest) = c :: normChars rest := by
  simp [normChars, h]

/-- Normalisation distributes over concatenation provided the boundary does
not split a CRLF pair. -/
theorem normChars_append : ∀ (a b : List Char),
    (a.getLast? = some '\r' → b.head? ≠ some '\n') →
    normChars (a ++ b) = normChars a ++ normChars b := by
  intro a
  induction a using normChars.induct with
  | case1 => intro b _; rfl
  | case2 rest ih =>
    intro b h
    cases rest with
    | nil =>
      cases b with
      | nil => rfl
      | cons x bs => simp [normChars_rn, normChars_nil]
    | cons y ys =>
      have hlast : ('\r' :: '\n' :: y :: ys).getLast? = (y :: ys).getLast? := by
        rw [List.getLast?_cons_cons, List.getLast?_cons_cons]
      simp only [List.cons_append, normChars_rn]
      have hrec := ih b (fun hg => h (by rw [hlast]; exact hg))
      simp only [List.cons_append] at hrec
      rw [hrec]
  | case3 rest hrest ih =>
    intro b h
    cases rest with
    | nil =>
      have hb : b.head? ≠ some '\n' := h rfl
      cases b with
      | nil => rfl
      | cons x bs =>
        have hx : ¬ x = '\n' := by
          intro he
          exact hb (by rw [he]; rfl)
        simp only [List.cons_append, List.nil_append]
        rw [normChars_r x bs hx]
        rfl
    | cons y ys =>
      have hy : ¬ y = '\n' := fun he => hrest ys (by rw [he])
      have hlast : ('\r' :: y :: ys).getLast? = (y :: ys).getLast? := by
        rw [List.getLast?_cons_cons]
      simp only [List.cons_append]
      rw [normChars_r y (ys ++ b) hy, normChars_r y ys hy]
      have := ih b (fun hg => h (by rw [hlast]; exact hg))
      simp only [List.cons_append] at this
      rw [this]
      rfl
  | case4 c rest hg hc ih =>
    intro b h
    have hc' : ¬ c = '\r' := fun he => hc he
    simp only [List.cons_append]
    rw [normChars_other c (rest ++ b) hc', normChars_other c rest hc']
    cases rest with
    | nil =>
      rw [ih b (fun hg' => absurd hg' (by simp))]
      simp [normChars_nil]
    | cons y ys =>
      rw [ih b (fun hg' => h (by rw [List.getLast?_cons_cons]; exact hg'))]
      simp [List.cons_append]

/-- Normalisation over a chunk partition that splits no CRLF pair equals
normalisation of the concatenation. -/
theorem normChars_flatten : ∀ (cs : List String), noCrlfSplit cs = true →
    normChars ((cs.map String.data).flatten) =
      (cs.map (fun c => normChars c.data)).flatten := by
  intro cs
  induction cs with
  | nil => intro _; rfl
  | cons c rest ih =>
    intro h
    simp only [noCrlfSplit, Bool.and_eq_true, Bool.not_eq_true'] at h
    obtain ⟨h1, h2⟩ := h
    simp only [List.map_cons, List.flatten_cons]
    rw [normChars_append c.data ((rest.map String.data).flatten) ?_, ih h2]
    intro hg hh
    rw [Bool.and_eq_false_iff] at h1
    cases h1 with
    | inl hx => rw [hg] at hx; simp at hx
    | inr hx =>
      have : ((rest.map String.data).flatten).head? = some '\n' := by
        cases hy : ((rest.map String.data).flatten).head? with
        | none => rw [hy] at hh; exact absurd hh (by simp)
        | some z =>
          rw [hy] at hh
          cases hh
          rfl
      rw [this] at hx
      simp at hx

theorem flushBlocks_append (acc : AccState) (bs₁ bs₂ : List (List Char)) :
    flushBlocks acc (bs₁ ++ bs₂) =
      match flushBlocks acc bs₁ with
      | .error m => .error m
      | .ok acc' => flushBlocks acc' bs₂ := by
  induction bs₁ generalizing acc with
  | nil => rfl
  | cons b bs ih =>
    simp only [List.cons_append, flushBlocks]
    cases flushEventBlock acc b with
    | error m => rfl
    | ok acc' => exact ih acc'

theorem splitBlocks_cons_block (c : Char) (rest : List Char)
    (hg : ∀ rest', c = '\n' → rest = '\n' :: rest' → False)
    (blk : List Char) (bs : List (List Char)) (r : List Char)
    (hs : splitBlocks rest = (blk :: bs, r)) :
    splitBlocks (c :: rest) = ((c :: blk) :: bs, r) := by
  simp [splitBlocks, hs, hg]

theorem splitBlocks_cons_rem (c : Char) (rest : List Char)
    (hg : ∀ rest', c = '\n' → rest = '\n' :: rest' → False)
    (r : List Char) (hs : splitBlocks rest = ([], r)) :
    splitBlocks (c :: rest) = ([], c :: r) := by
  simp [splitBlocks, hs, hg]

/-- A run with no complete block leaves the buffer untouched. -/
theorem splitBlocks_no_sep : ∀ (l r : List Char), splitBlocks l = ([], r) → r = l := by
  intro l
  induction l using splitBlocks.induct with
  | case1 =>
    intro r h
    exact (congrArg Prod.snd h).symm
  | case2 rest ih =>
    intro r h
    simp [splitBlocks] at h
  | case3 c rest hg blk bs r0 hs ih =>
    intro r h
    rw [splitBlocks_cons_block c rest hg blk bs r0 hs] at h
    exact absurd (congrArg Prod.fst h) (by simp)
  | case4 c rest hg r0 hs ih =>
    intro r h
    rw [splitBlocks_cons_rem c rest hg r0 hs] at h
    have h2 : c :: r0 = r := congrArg Prod.snd h
    rw [← h2, ih r0 hs]

/-- Splitting a buffer extended by more bytes: the blocks of the old buffer
come first, then the blocks found in the old remainder joined with the new
bytes. -/
theorem splitBlocks_append : ∀ (b c : List Char),
    splitBlocks (b ++ c) =
      ((splitBlocks b).1 ++ (splitBlocks ((splitBlocks b).2 ++ c)).1,
       (splitBlocks ((splitBlocks b).2 ++ c)).2) := by
  intro b
  induction b using splitBlocks.induct with
  | case1 => intro c; simp [splitBlocks]
  | case2 rest ih =>
    intro c
    have h1 : splitBlocks ('\n' :: '\n' :: rest) =
        ([] :: (splitBlocks rest).1, (splitBlocks rest).2) := by
      simp [splitBlocks]
    have h2 : splitBlocks (('\n' :: '\n' :: rest) ++ c) =
        ([] :: (splitBlocks (rest ++ c)).1, (splitBlocks (rest ++ c)).2) := by
      simp [splitBlocks]
    rw [h1, h2, ih c]
    simp
  | case3 ch rest hg blk bs r hs ih =>
    intro c
    have hrest_ne : rest ≠ [] := by
      intro he
      rw [he] at hs
      simp [splitBlocks] at hs
    have hg' : ∀ rest', ch = '\n' → rest ++ c = '\n' :: rest' → False := by
      intro r1 hch happ
      cases rest with
      | nil => exact hrest_ne rfl
      | cons x xs =>
        simp only [List.cons_append, List.cons.injEq] at happ
        exact hg xs hch (by rw [happ.1])
    have hceq : splitBlocks (rest ++ c) =
        (blk :: (bs ++ (splitBlocks (r ++ c)).1), (splitBlocks (r ++ c)).2) := by
      rw [ih c, hs]
      simp
    rw [show (ch :: rest) ++ c = ch :: (rest ++ c) from rfl,
      splitBlocks_cons_block ch (rest ++ c) hg' _ _ _ hceq,
      splitBlocks_cons_block ch rest hg blk bs r hs]
    simp
  | case4 ch rest hg r hs ih =>
    intro c
    have hr : r = rest := splitBlocks_no_sep rest r hs
    rw [hr] at hs
    rw [splitBlocks_cons_rem ch rest hg rest hs]
    simp

/-- Draining after appending bytes is draining, then draining the extended
remainder. -/
theorem drainNow_append (st : SseState) (c : List Char) :
    drainNow ⟨st.buffer ++ c, st.acc⟩ =
      match drainNow st with
      | .error m => .error m
      | .ok st' => drainNow ⟨st'.buffer ++ c, st'.acc⟩ := by
  unfold drainNow
  simp only [splitBlocks_append st.buffer c]
  rw [flushBlocks_append st.acc (splitBlocks st.buffer).1
    (splitBlocks ((splitBlocks st.buffer).2 ++ c)).1]
  cases flushBlocks st.acc (splitBlocks st.buffer).1 with
  | error m => rfl
  | ok acc' => rfl

/-- The decoder loop equals one drain of the fully assembled, per-chunk
normalised buffer. -/
theorem sseLoop_flatten : ∀ (cs : List String) (st : SseState),
    sseLoop st cs =
      drainNow ⟨st.buffer ++ (cs.map (fun c => normChars c.data)).flatten, st.acc⟩ := by
  intro cs
  induction cs with
  | nil =>
    intro st
    simp [sseLoop]
  | cons c rest ih =>
    intro st
    simp only [sseLoop, List.map_cons, List.flatten_cons]
    rw [drainNow_append st (normChars c.data ++ (rest.map (fun c => normChars c.data)).flatten)]
    cases drainNow st with
    | error m => rfl
    | ok st' =>
      dsimp only
      rw [ih ⟨st'.buffer ++ normChars c.data, st'.acc⟩]
      simp [List.append_assoc]

theorem string_join_data (l : List String) :
    (String.join l).data = (l.map String.data).flatten := by
  have hgen : ∀ (l : List String) (s : String),
      (l.foldl (· ++ ·) s).data = s.data ++ (l.map String.data).flatten := by
    intro l
    induction l with
    | nil => intro s; simp
    | cons x xs ih =>
      intro s
      simp only [List.foldl_cons, ih, List.map_cons, List.flatten_cons]
      rw [show (s ++ x).data = s.data ++ x.data from rfl]
      simp [List.append_assoc]
  rw [show String.join l = l.foldl (· ++ ·) "" from rfl, hgen l ""]
  rfl

/-- C2 (amended): for every partition of an event-stream byte sequence into
chunks that does not separate a `"\r\n"` pair across a chunk boundary, the
decoded final text equals that of the same bytes delivered as one chunk.
(Splitting a CRLF pair across chunks is excluded: per-chunk normalisation
turns the split pair into two newlines — see the counterexample.) -/
theorem thmC2 (chunks : List String) (h : noCrlfSplit chunks = true) :
    readSseTextStream "" chunks = readSseTextStream "" [String.join chunks] := by
  unfold readSseTextStream runDecode
  rw [sseLoop_flatten chunks ⟨("" : String).data, AccState.init⟩,
    sseLoop_flatten [String.join chunks] ⟨("" : String).data, AccState.init⟩]
  simp only [List.map_cons, List.map_nil, List.flatten_cons, List.flatten_nil,
    List.append_nil]
  rw [string_join_data, normChars_flatten chunks h]

/-- C2 witness: a two-chunk partition with no CRLF split decodes as the
single chunk does. -/
theorem witC2 :
    noCrlfSplit ["data: a", "b\n\n"] = true ∧
    readSseTextStream "" ["data: a", "b\n\n"] =
      readSseTextStream "" [String.join ["data: a", "b\n\n"]] :=
  ⟨by decide, thmC2 ["data: a", "b\n\n"] (by decide)⟩

/-- C2 counterexample to the claim as stated: splitting inside the CRLF pair
of `"data: hi\r\ndata: there\n\n"` changes the decoded text — the split
delivery turns CR and LF into two newlines, closing the event block early,
so the two `data:` lines land in different events. -/
theorem cexC2 :
    readSseTextStream "" crlfSplitChunks = .ok "hithere" ∧
    readSseTextStream "" [String.join crlfSplitChunks] = .ok "hi\nthere" ∧
    ("hithere" : String) ≠ "hi\nthere" :=
  ⟨rfl, rfl, by decide⟩

/-! ## Error-event lemmas (claim C3) -/

theorem splitNl_single (l : List Char) (h : '\n' ∉ l) : splitNl l = [l] := by
  induction l with
  | nil => rfl
  | cons c rest ih =>
    have hc : ¬ c = '\n' := fun he => h (he ▸ List.mem_cons_self c rest)
    have hr : '\n' ∉ rest := fun hm => h (List.mem_cons_of_mem c hm)
    exact splitNl_cons_of_ne c rest hc rest [] (ih hr)

theorem splitBlocks_single (l : List Char) (h : '\n' ∉ l) :
    splitBlocks (l ++ ['\n', '\n']) = ([l], []) := by
  induction l with
  | nil => rfl
  | cons c rest ih =>
    have hc : ¬ c = '\n' := fun he => h (he ▸ List.mem_cons_self c rest)
    have hr : '\n' ∉ rest := fun hm => h (List.mem_cons_of_mem c hm)
    exact splitBlocks_cons_block c (rest ++ ['\n', '\n'])
      (fun _ hch _ => hc hch) rest [] [] (ih hr)

theorem trimStart_of_trim (cs : List Char) (h : jsTrimL cs = cs) :
    jsTrimStartL cs = cs := by
  have hsuf : jsTrimStartL cs <:+ cs := List.dropWhile_suffix _
  have hlen1 : (jsTrimL cs).length ≤ (jsTrimStartL cs).length := by
    unfold jsTrimL
    rw [List.length_reverse]
    have hd := (List.dropWhile_suffix (l := (jsTrimStartL cs).reverse) isJsWhitespace).length_le
    simpa using hd
  have hlen2 : (jsTrimStartL cs).length ≤ cs.length := hsuf.length_le
  have hlen : (jsTrimStartL cs).length = cs.length := by
    rw [h] at hlen1
    omega
  exact hsuf.eq_of_length hlen

theorem typeIs_ne (payload : Json) (a b : String)
    (ha : typeIs payload a = true) (hne : a ≠ b) : typeIs payload b = false := by
  unfold typeIs at *
  cases hf : payload.getField "type" with
  | none => simp_all
  | some v => cases v <;> simp_all

theorem noNewline_not_mem (s : String) (h : noNewline s = true) : '\n' ∉ s.data := by
  unfold noNewline at h
  intro hm
  simp only [Bool.not_eq_true'] at h
  have : s.data.any (· == '\n') = true := by
    rw [List.any_eq_true]
    exact ⟨'\n', hm, by simp⟩
  rw [this] at h
  exact Bool.noConfusion h

/-- Flushing a block `data: <payload>` whose payload parses to an explicit
error event throws the carried message (or the generic one). -/
theorem flushEventBlock_error_event (acc : AccState) (s : String) (payload : Json)
    (hp : jsonParse s = some payload) (hnl : noNewline s = true) (ht : jsTrim s = s)
    (he : typeIs payload "response.error" = true) :
    flushEventBlock acc ("data: " ++ s).data = .error (errorEventMessage payload) := by
  have hdataL : jsTrimL s.data = s.data := congrArg String.data ht
  have hnl2 : '\n' ∉ ("data: " ++ s).data := by
    rw [show ("data: " ++ s).data = "data: ".data ++ s.data from rfl]
    intro hm
    rcases List.mem_append.mp hm with hm1 | hm1
    · exact absurd hm1 (by decide)
    · exact noNewline_not_mem s hnl hm1
  have hsne : s.data ≠ [] := by
    intro hnil
    have h0 : jsonParse ⟨s.data⟩ = some payload := hp
    rw [hnil] at h0
    exact Option.noConfusion h0
  have hsdone : s.data ≠ "[DONE]".data := by
    intro heq
    have h0 : jsonParse ⟨s.data⟩ = some payload := hp
    rw [heq] at h0
    exact Option.noConfusion h0
  have hpref : prefixB "data:".data ("data: " ++ s).data = true := rfl
  have hdrop : List.drop 5 ("data: " ++ s).data = ' ' :: s.data := rfl
  have htrim2 : jsTrimStartL (' ' :: s.data) = s.data := by
    rw [show jsTrimStartL (' ' :: s.data) = jsTrimStartL s.data from rfl,
      trimStart_of_trim s.data hdataL]
  have hempty : s.data.isEmpty = false := by
    cases hh : s.data with
    | nil => exact absurd hh hsne
    | cons a as => rfl
  have hdone : (s.data == "[DONE]".data) = false := by
    rw [beq_eq_false_iff_ne]
    exact hsdone
  have hinter : List.intercalate ['\n'] [s.data] = s.data := by
    simp [List.intercalate]
  unfold flushEventBlock
  rw [splitNl_single _ hnl2]
  simp only [List.filter_cons, hpref, if_true, List.filter_nil, List.map_cons, List.map_nil,
    hdrop, htrim2, List.isEmpty_cons, Bool.false_eq_true, if_false, hinter, hdataL, hempty,
    hdone, Bool.or_self]
  rw [show (⟨s.data⟩ : String) = s from rfl, hp]
  dsimp only
  rw [typeIs_ne payload "response.error" "response.completed" he (by decide),
    typeIs_ne payload "response.error" "response.output_text.done" he (by decide), he]
  simp

/-- An erroring drain makes the whole loop error regardless of the chunks
still to come. -/
theorem sseLoop_error (st : SseState) (m : String) (h : drainNow st = .error m) :
    ∀ (rest : List String), sseLoop st rest = .error m := by
  intro rest
  cases rest with
  | nil => simpa [sseLoop] using h
  | cons c cs => simp [sseLoop, h]

/-- C3 (amended): a flushed block whose payload is an explicit error event
aborts decoding immediately — whatever chunks follow are never processed —
and the decoder throws the carried message, or `"Response error."` when it
is absent or blank; the handler maps the thrown message to `Failed` with
that message, with exactly two exceptions: a message matching the abort
classification is reported as `Cancelled`, and the literal transport
message "Failed to fetch" is rewritten to the network diagnostic.  (A
thrown error-event message is never empty, so the handler's
"Request failed." fallback is unreachable from error events.)  The
rate-limited example yields `Failed "rate limited"` end to end, and a
carried "Failed to fetch" yields the rewritten diagnostic end to end. -/
theorem thmC3 :
    (∀ (s : String) (payload : Json), jsonParse s = some payload →
      noNewline s = true → jsTrim s = s → typeIs payload "response.error" = true →
      ∀ (rest : List String),
        readSseTextStream ("data: " ++ s ++ "\n\n") rest =
          .error (errorEventMessage payload)) ∧
    (∀ m : String, isAbortErr ⟨"Error", m⟩ = false →
      catchChatError ⟨"Error", m⟩ =
        .failed (if m == "Failed to fetch" then
            "Network error: Failed to fetch (temporary connection issue or API unreachable)."
          else if m != "" then m else "Error")) ∧
    (∀ m : String, isAbortErr ⟨"Error", m⟩ = true →
      catchChatError ⟨"Error", m⟩ = .cancelled) ∧
    (∀ payload : Json, errorEventMessage payload ≠ "") ∧
    handleChatResponse rateLimitedResponse = .failed "rate limited" ∧
    handleChatResponse failedFetchEventResponse =
      .failed "Network error: Failed to fetch (temporary connection issue or API unreachable)." := by
  refine ⟨?_, ?_, ?_, ?_, by decide, by decide⟩
  · intro s payload hp hnl ht he rest
    unfold readSseTextStream runDecode
    have hnl2 : '\n' ∉ ("data: " ++ s).data := by
      rw [show ("data: " ++ s).data = "data: ".data ++ s.data from rfl]
      intro hm
      rcases List.mem_append.mp hm with hm1 | hm1
      · exact absurd hm1 (by decide)
      · exact noNewline_not_mem s hnl hm1
    have hdrain : drainNow ⟨("data: " ++ s ++ "\n\n").data, AccState.init⟩ =
        .error (errorEventMessage payload) := by
      unfold drainNow
      rw [show ("data: " ++ s ++ "\n\n").data = ("data: " ++ s).data ++ ['\n', '\n'] from rfl,
        splitBlocks_single _ hnl2]
      simp only [flushBlocks, flushEventBlock_error_event AccState.init s payload hp hnl ht he]
    rw [sseLoop_error _ _ hdrain rest]
  · intro m hab
    unfold catchChatError
    rw [hab]
    simp only [Bool.false_eq_true, if_false]
    by_cases hf : (m == "Failed to fetch") = true
    · have hm : m = "Failed to fetch" := by simpa using hf
      subst hm
      rfl
    · have hf' : (m == "Failed to fetch") = false := by simpa using hf
      by_cases hne : (m != "") = true
      · simp [hf', hne]
      · have hm : m = "" := by simpa using hne
        subst hm
        rfl
  · intro m hab
    unfold catchChatError
    rw [hab]
    simp
  · intro payload
    unfold errorEventMessage
    cases hopt : optStr ((payload.getField "error").bind (fun v => v.getField "message")) with
    | none => simp
    | some m =>
      by_cases ht : (jsTrim m != "") = true
      · simp only [ht, if_true]
        intro hm
        rw [hm] at ht
        exact absurd ht (by decide)
      · have ht' : (jsTrim m != "") = false := by simpa using ht
        simp [ht']

/-- C3 witness: the rate-limited error event and the Failed-to-fetch
rewrite, via the theorem's general parts. -/
theorem witC3 :
    readSseTextStream ("data: " ++ rateLimitedPayload ++ "\n\n") ["data: ignored\n\n"] =
      .error (errorEventMessage rateLimitedJson) ∧
    catchChatError ⟨"Error", "rate limited"⟩ = .failed "rate limited" ∧
    catchChatError ⟨"Error", "Failed to fetch"⟩ =
      .failed "Network error: Failed to fetch (temporary connection issue or API unreachable)." :=
  ⟨thmC3.1 rateLimitedPayload rateLimitedJson rfl rfl rfl rfl ["data: ignored\n\n"],
   by have h := thmC3.2.1 "rate limited" rfl; simpa using h,
   by have h := thmC3.2.1 "Failed to fetch" rfl; simpa using h⟩

/-- C3 counterexample to the claim as stated: an error event whose carried
message is `"aborted"` does not make the call fail with that message — the
handler's abort classification reports it as `Cancelled`. -/
theorem cexC3 :
    handleChatResponse abortedEventResponse = .cancelled ∧
    ChatResult.cancelled ≠ ChatResult.failed "aborted" :=
  ⟨by decide, by decide⟩

end CodexHelper
